import Mathlib

/-!
Verification of the path-addressed tree transformation engine of the
converter program (main.go): the dotted-path navigator (`extractFieldValue`),
the dotted-path writer (`insertFieldValue`), the typed random-value generator
(`generateRandomValue`), and the tabular side-data loader (`extractFileData`).

Modelling conventions:
  - A Go `interface{}` value decoded from JSON is modelled by `Value`.
    Go's untyped `nil` (which is both the JSON null and the "absent" signal
    returned by `extractFieldValue`) is `Value.vnull`; there is a single
    null, exactly as in Go.
  - A Go `map[string]interface{}` is modelled as an association list
    (`DocTree`) whose update operation `aset` replaces the binding of an
    existing key in place, mirroring map assignment.
  - Go run-time panics (failed type assertions, out-of-range indexing,
    `rand.Intn` on a non-positive bound) are modelled as `Except` errors.
  - The process-global `*rand.Rand` source is modelled by `RandSrc`: its
    `intn` field models `rn.Intn` (contract: `intn n < n` for `0 < n`);
    `binary64` models the base64 encoding of 64 bytes read from the source;
    `roundedDouble mn mx` models `math.Round((mn+rn.Float64()*(mx-mn))*100)/100`
    (floating-point arithmetic is kept abstract in the oracle; no claim
    depends on the double branch).
  - JSON numbers are modelled as integers (`Value.vnum : Int`); all claims
    about numeric parameters involve integers, for which Go's
    `int(x.(float64))` conversion is exact.
-/

inductive Value where
  | vnull : Value
  | vbool : Bool → Value
  | vnum : Int → Value
  | vstr : String → Value
  | varr : List Value → Value
  | vtree : List (String × Value) → Value
  | vempty : Value

abbrev DocTree := List (String × Value)

/-- The constant `NullValue = "NULL"` from main.go. -/
def NullValue : String := "NULL"

/-- Association-list lookup, modelling Go map indexing `m[k]` with its
presence flag. -/
def alookup {α : Type} : List (String × α) → String → Option α
  | [], _ => none
  | (k', v) :: rest, k => if k' = k then some v else alookup rest k

/-- Association-list update, modelling Go map assignment `m[k] = v`:
replaces the binding of an existing key, otherwise appends. -/
def aset {α : Type} : List (String × α) → String → α → List (String × α)
  | [], k, v => [(k, v)]
  | (k', v') :: rest, k, v =>
    if k' = k then (k, v) :: rest else (k', v') :: aset rest k v

/-- Go dynamic-type test `val == nil` on an `interface{}`. -/
def isNullV : Value → Bool
  | .vnull => true
  | _ => false

/-- Go interface comparison `value == NullValue` (true exactly when the
dynamic type is `string` and the content is "NULL"). -/
def isNullString : Value → Bool
  | .vstr s => s = NullValue
  | _ => false

/-- The Path Navigator `extractFieldValue` from main.go, translated
clause by clause: empty path returns the whole tree; absent first segment
returns nil; at the last segment a stored nil becomes the `NullValue`
sentinel; with more segments left, recurse when the value is a nested map,
otherwise return nil. -/
def extractFieldValue : DocTree → List String → Value
  | data, [] => Value.vtree data
  | data, p :: rest =>
    match alookup data p with
    | none => Value.vnull
    | some val =>
      match rest with
      | [] => if isNullV val then Value.vstr NullValue else val
      | _ :: _ =>
        match val with
        | Value.vtree typed => extractFieldValue typed rest
        | _ => Value.vnull

/-- Failure modes of `insertFieldValue`: `emptyPath` is the out-of-range
panic on `path[len(path)-1]` for an empty path; `typeAssert` is the panic
of the assertion `data[key].(map[string]interface{})`. -/
inductive InsertErr where
  | emptyPath : InsertErr
  | typeAssert : InsertErr
deriving DecidableEq

/-- The Path Writer `insertFieldValue` from main.go. The Go loop walks all
but the last segment, creating an empty map where the key is absent and
type-asserting the stored value to a map otherwise; at the last segment the
`NullValue` sentinel is replaced by nil and the value stored. The in-place
mutation is rendered functionally: the updated subtree is written back with
`aset`, and panics become `Except.error`. -/
def insertFieldValue : DocTree → List String → Value → Except InsertErr DocTree
  | _, [], _ => .error .emptyPath
  | data, [k], value =>
    .ok (aset data k (if isNullString value then Value.vnull else value))
  | data, k :: k' :: rest, value =>
    match alookup data k with
    | none =>
      match insertFieldValue [] (k' :: rest) value with
      | .ok sub => .ok (aset data k (Value.vtree sub))
      | .error e => .error e
    | some (Value.vtree t) =>
      match insertFieldValue t (k' :: rest) value with
      | .ok sub => .ok (aset data k (Value.vtree sub))
      | .error e => .error e
    | some _ => .error .typeAssert

/-- One application of a `field_mapping` rule from the main loop of
main.go: `value := extractFieldValue(doc.Source, oldPath)` followed by
`if value != nil { insertFieldValue(newSource, newPath, value) }`.
Paths are taken already split on the dot, as produced by `strings.Split`. -/
def applyFieldMappingRule (src out : DocTree) (newPath oldPath : List String) :
    Except InsertErr DocTree :=
  if isNullV (extractFieldValue src oldPath) then .ok out
  else insertFieldValue out newPath (extractFieldValue src oldPath)

/-- Characterisation used to state the Writer's failure mode: walking the
non-final segments of the path, some segment already stores a value that is
not a nested tree. A segment whose key is absent is auto-vivified by the
Writer, so nothing below it is "already stored" and the walk stops clean. -/
def badIntermediate : DocTree → List String → Bool
  | _, [] => false
  | _, [_] => false
  | data, k :: k' :: rest =>
    match alookup data k with
    | none => false
    | some (Value.vtree t) => badIntermediate t (k' :: rest)
    | some _ => true

/-- Presence of a dotted path in a tree: every non-final segment resolves
to a nested tree and the final segment's key is present. The spec's notion
of a source path being "absent from the input document" is the negation. -/
def pathPresent : DocTree → List String → Bool
  | _, [] => true
  | data, k :: rest =>
    match alookup data k with
    | none => false
    | some v =>
      match rest with
      | [] => true
      | _ :: _ =>
        match v with
        | Value.vtree t => pathPresent t rest
        | _ => false

/-- Failure modes of `generateRandomValue`: `assertFail` models a panicking
type assertion on a config parameter (`config["min"].(float64)`,
`config["values"].([]interface{})`), `intnNonPositive` the panic of
`rand.Intn` on a non-positive argument. -/
inductive GenErr where
  | assertFail : GenErr
  | intnNonPositive : GenErr
deriving DecidableEq

/-- The pseudo-random source `rn *rand.Rand`. `intn` models `rn.Intn`
(its contract, `intn n < n` whenever `0 < n`, is a hypothesis of the
theorems); `binary64` models the base64 encoding of 64 bytes read from the
source; `roundedDouble` models the rounded double computation, kept
abstract because no claim touches floating point. -/
structure RandSrc where
  intn : Nat → Nat
  binary64 : String
  roundedDouble : Int → Int → Value

/-- Branch of `generateRandomValue` for types long, integer, short, byte:
reads `min` and `max` (type-asserted numbers) and returns
`rn.Intn(mx-mn+1) + mn`; `rand.Intn` panics when its argument is not
positive. -/
def genIntRange (rn : RandSrc) (config : DocTree) : Except GenErr Value :=
  match alookup config "min", alookup config "max" with
  | some (Value.vnum mn), some (Value.vnum mx) =>
    if mx - mn + 1 ≤ 0 then .error .intnNonPositive
    else .ok (Value.vnum (mn + (rn.intn (mx - mn + 1).toNat : Int)))
  | _, _ => .error .assertFail

/-- Branch of `generateRandomValue` for types double, float, half_float:
reads `min` and `max` and returns the rounded uniform double, abstracted
into the random source. -/
def genDoubleRange (rn : RandSrc) (config : DocTree) : Except GenErr Value :=
  match alookup config "min", alookup config "max" with
  | some (Value.vnum mn), some (Value.vnum mx) => .ok (rn.roundedDouble mn mx)
  | _, _ => .error .assertFail

/-- Branch of `generateRandomValue` for types keyword, wildcard,
constant_keyword: reads the `values` list (type-asserted) and returns
`values[rn.Intn(len(values))]`; `rand.Intn` panics on an empty list, and an
`intn` outside its contract would panic as an index error, folded into the
same branch here since Go aborts either way inside `rn.Intn`/indexing. -/
def genKeyword (rn : RandSrc) (config : DocTree) : Except GenErr Value :=
  match alookup config "values" with
  | some (Value.varr vs) =>
    match vs[rn.intn vs.length]? with
    | some v => .ok v
    | none => .error .intnNonPositive
  | _ => .error .assertFail

/-- Go interface comparison `config["type"] == s` for a case label `s` of
the switch in `generateRandomValue`: true exactly when the key is present
with dynamic type `string` and equal content. -/
def typeIs (tyv : Option Value) (s : String) : Bool :=
  match tyv with
  | some (Value.vstr s') => s' = s
  | _ => false

/-- The Typed Random Generator `generateRandomValue` from main.go: a switch
on `config["type"]`, rendered as the sequence of case-label comparisons Go
performs. The `date` case falls out of the switch with only a TODO comment,
so control reaches the trailing `return struct\x7b\x7d\x7b\x7d`, modelled
as `Value.vempty`; an unknown or absent type returns nil. -/
def generateRandomValue (rn : RandSrc) (config : DocTree) : Except GenErr Value :=
  let tyv := alookup config "type"
  if typeIs tyv "binary" then .ok (Value.vstr rn.binary64)
  else if typeIs tyv "boolean" then .ok (Value.vbool (decide (rn.intn 2 = 0)))
  else if typeIs tyv "date" then .ok Value.vempty
  else if typeIs tyv "long" || typeIs tyv "integer" ||
      typeIs tyv "short" || typeIs tyv "byte" then genIntRange rn config
  else if typeIs tyv "double" || typeIs tyv "float" ||
      typeIs tyv "half_float" then genDoubleRange rn config
  else if typeIs tyv "keyword" || typeIs tyv "wildcard" ||
      typeIs tyv "constant_keyword" then genKeyword rn config
  else .ok Value.vnull

/-- Failure modes of `extractFileData` after a successful CSV parse:
`emptyRecords` is the out-of-range panic of `records[0]` on a file with no
records; `noIdColumn` the fatal "id column not found"; `rowIndexOutOfRange`
an out-of-range `row[i]` on a short row. -/
inductive FileErr where
  | emptyRecords : FileErr
  | noIdColumn : FileErr
  | rowIndexOutOfRange : FileErr
deriving DecidableEq

/-- The header scan of `extractFileData`: index of the first column whose
header equals "id", if any. -/
def findIdIndex : List String → Nat → Option Nat
  | [], _ => none
  | h :: rest, i => if h = "id" then some i else findIdIndex rest (i + 1)

/-- The inner loop of `extractFileData` building one row's field map:
`for i, header := range headers`, skipping the id column and storing
`fields[header] = row[i]` otherwise. -/
def rowFieldsAux (row : List String) (idIndex : Nat) :
    List String → Nat → DocTree → Except FileErr DocTree
  | [], _, acc => .ok acc
  | h :: hs, i, acc =>
    if i = idIndex then rowFieldsAux row idIndex hs (i + 1) acc
    else
      match row[i]? with
      | some v => rowFieldsAux row idIndex hs (i + 1) (aset acc h (Value.vstr v))
      | none => .error .rowIndexOutOfRange

/-- Field map of one data row, excluding the id column. -/
def rowFields (headers row : List String) (idIndex : Nat) : Except FileErr DocTree :=
  rowFieldsAux row idIndex headers 0 []

/-- The row loop of `extractFileData`: for each data row, key it by its id
column and store its field map, overwriting any earlier row with the same
id (`dataMapByID[id] = fields`). -/
def buildMapByID (headers : List String) (idIndex : Nat) :
    List (List String) → List (String × DocTree) → Except FileErr (List (String × DocTree))
  | [], acc => .ok acc
  | row :: rest, acc =>
    match row[idIndex]? with
    | none => .error .rowIndexOutOfRange
    | some id =>
      match rowFields headers row idIndex with
      | .ok fields => buildMapByID headers idIndex rest (aset acc id fields)
      | .error e => .error e

/-- The Tabular Side-Data Loader `extractFileData` from main.go, after the
CSV parse: `headers := records[0]` (out-of-range on an empty record list),
then the scan for the "id" column (fatal when absent), then the row loop. -/
def extractFileData : List (List String) → Except FileErr (List (String × DocTree))
  | [] => .error .emptyRecords
  | headers :: rows =>
    match findIdIndex headers 0 with
    | none => .error .noIdColumn
    | some idIndex => buildMapByID headers idIndex rows []

theorem alookup_aset_self {α : Type} (l : List (String × α)) (k : String) (v : α) :
    alookup (aset l k v) k = some v := by
  induction l with
  | nil => simp [aset, alookup]
  | cons hd tl ih =>
    obtain ⟨k', v'⟩ := hd
    by_cases h : k' = k <;> simp [aset, alookup, h, ih]

theorem alookup_aset_ne {α : Type} (l : List (String × α)) (k k' : String) (v : α)
    (h : k ≠ k') : alookup (aset l k v) k' = alookup l k' := by
  induction l with
  | nil => simp [aset, alookup, h]
  | cons hd tl ih =>
    obtain ⟨k₀, v₀⟩ := hd
    by_cases h0 : k₀ = k
    · subst h0; simp [aset, alookup, h]
    · simp [aset, alookup, h0, ih]

theorem aset_of_alookup_eq {α : Type} (l : List (String × α)) (k : String) (v : α)
    (h : alookup l k = some v) : aset l k v = l := by
  induction l with
  | nil => simp [alookup] at h
  | cons hd tl ih =>
    obtain ⟨k₀, v₀⟩ := hd
    by_cases h0 : k₀ = k
    · subst h0
      simp [alookup] at h
      simp [aset, h]
    · simp [alookup, h0] at h
      simp [aset, h0, ih h]

theorem isNullV_iff (v : Value) : isNullV v = true ↔ v = Value.vnull := by
  cases v <;> simp [isNullV]

theorem isNullString_iff (v : Value) : isNullString v = true ↔ v = Value.vstr NullValue := by
  cases v <;> simp [isNullString]

/-- Claim C1: for every tree t, non-empty dotted path p and value v, when
inserting v at p succeeds, extracting at p from the resulting tree returns
v, except when v is the absence sentinel (Go nil, here `Value.vnull`). -/
theorem extract_insert_roundtrip (p : List String) :
    ∀ (t t' : DocTree) (v : Value), insertFieldValue t p v = .ok t' →
      v ≠ Value.vnull → extractFieldValue t' p = v := by
  induction p with
  | nil =>
    intro t t' v hok hv
    simp [insertFieldValue] at hok
  | cons k rest ih =>
    intro t t' v hok hv
    cases rest with
    | nil =>
      simp only [insertFieldValue, Except.ok.injEq] at hok
      subst hok
      simp only [extractFieldValue, alookup_aset_self]
      by_cases hns : isNullString v = true
      · rw [isNullString_iff] at hns
        subst hns
        simp [isNullString, isNullV, NullValue]
      · have hnv : isNullV v = false := by
          cases hb : isNullV v
          · rfl
          · exact absurd ((isNullV_iff v).mp hb) hv
        simp [hns, hnv]
    | cons r rs =>
      cases hlk : alookup t k with
      | none =>
        simp only [insertFieldValue, hlk] at hok
        cases hins : insertFieldValue [] (r :: rs) v with
        | error e => simp [hins] at hok
        | ok sub =>
          simp only [hins, Except.ok.injEq] at hok
          subst hok
          simp only [extractFieldValue, alookup_aset_self]
          exact ih [] sub v hins hv
      | some val =>
        cases val with
        | vtree t₂ =>
          simp only [insertFieldValue, hlk] at hok
          cases hins : insertFieldValue t₂ (r :: rs) v with
          | error e => simp [hins] at hok
          | ok sub =>
            simp only [hins, Except.ok.injEq] at hok
            subst hok
            simp only [extractFieldValue, alookup_aset_self]
            exact ih t₂ sub v hins hv
        | vnull => simp [insertFieldValue, hlk] at hok
        | vbool b => simp [insertFieldValue, hlk] at hok
        | vnum n => simp [insertFieldValue, hlk] at hok
        | vstr s => simp [insertFieldValue, hlk] at hok
        | varr a => simp [insertFieldValue, hlk] at hok
        | vempty => simp [insertFieldValue, hlk] at hok

theorem insert_nil_ok (p : List String) :
    ∀ v : Value, p ≠ [] → ∃ t', insertFieldValue [] p v = .ok t' := by
  induction p with
  | nil => intro v h; exact absurd rfl h
  | cons k rest ih =>
    intro v _
    cases rest with
    | nil => exact ⟨_, rfl⟩
    | cons r rs =>
      obtain ⟨sub, hsub⟩ := ih v (by simp)
      refine ⟨aset [] k (Value.vtree sub), ?_⟩
      simp [insertFieldValue, alookup, hsub]

theorem insert_eq_of_alookup_tree {t : DocTree} {k : String} (r : String) (rs : List String)
    (v : Value) {t₂ : DocTree} (h : alookup t k = some (Value.vtree t₂)) :
    insertFieldValue t (k :: r :: rs) v =
      match insertFieldValue t₂ (r :: rs) v with
      | .ok sub => .ok (aset t k (Value.vtree sub))
      | .error e => .error e := by
  simp [insertFieldValue, h]

theorem badIntermediate_cons_tree {t : DocTree} {k : String} (r : String) (rs : List String)
    {t₂ : DocTree} (h : alookup t k = some (Value.vtree t₂)) :
    badIntermediate t (k :: r :: rs) = badIntermediate t₂ (r :: rs) := by
  simp [badIntermediate, h]

/-- Claim C2: for every tree t and path p of length at least two, insert
fails with the runtime type-assertion failure exactly when some
intermediate (non-final) segment of p already stores a value that is not a
nested tree; otherwise it completes normally. -/
theorem insert_typeAssert_iff (p : List String) :
    ∀ (t : DocTree) (v : Value), 2 ≤ p.length →
      ((insertFieldValue t p v = .error .typeAssert ↔ badIntermediate t p = true) ∧
        (badIntermediate t p = false → ∃ t', insertFieldValue t p v = .ok t')) := by
  induction p with
  | nil => intro t v h; simp at h
  | cons k rest ih =>
    intro t v hlen
    cases rest with
    | nil => simp at hlen
    | cons r rs =>
      cases hlk : alookup t k with
      | none =>
        obtain ⟨sub, hsub⟩ := insert_nil_ok (r :: rs) v (by simp)
        constructor
        · simp [insertFieldValue, badIntermediate, hlk, hsub]
        · intro _
          exact ⟨aset t k (Value.vtree sub), by simp [insertFieldValue, hlk, hsub]⟩
      | some val =>
        cases val with
        | vtree t₂ =>
          cases rs with
          | nil =>
            constructor
            · simp [insertFieldValue, badIntermediate, hlk]
            · intro _
              exact ⟨aset t k (Value.vtree
                  (aset t₂ r (if isNullString v then Value.vnull else v))),
                by simp [insertFieldValue, hlk]⟩
          | cons r₂ rs₂ =>
            obtain ⟨hiff, hok⟩ := ih t₂ v (by simp)
            have hstep := insert_eq_of_alookup_tree r (r₂ :: rs₂) v hlk
            have hbadstep := badIntermediate_cons_tree r (r₂ :: rs₂) hlk
            constructor
            · rw [hstep, hbadstep, ← hiff]
              cases hins : insertFieldValue t₂ (r :: r₂ :: rs₂) v <;> simp
            · intro hbad
              rw [hbadstep] at hbad
              obtain ⟨sub, hsub⟩ := hok hbad
              exact ⟨aset t k (Value.vtree sub), by rw [hstep, hsub]⟩
        | vnull => exact ⟨by simp [insertFieldValue, badIntermediate, hlk],
            fun hbad => by simp [badIntermediate, hlk] at hbad⟩
        | vbool b => exact ⟨by simp [insertFieldValue, badIntermediate, hlk],
            fun hbad => by simp [badIntermediate, hlk] at hbad⟩
        | vnum n => exact ⟨by simp [insertFieldValue, badIntermediate, hlk],
            fun hbad => by simp [badIntermediate, hlk] at hbad⟩
        | vstr s => exact ⟨by simp [insertFieldValue, badIntermediate, hlk],
            fun hbad => by simp [badIntermediate, hlk] at hbad⟩
        | varr a => exact ⟨by simp [insertFieldValue, badIntermediate, hlk],
            fun hbad => by simp [badIntermediate, hlk] at hbad⟩
        | vempty => exact ⟨by simp [insertFieldValue, badIntermediate, hlk],
            fun hbad => by simp [badIntermediate, hlk] at hbad⟩

/-- Claim C3: extract returns nil (absence) both when the first segment of
the path is not a key of the tree and when further segments remain but the
current value is not a nested tree - silently, not as an error (extract is
total). -/
theorem extract_absent_or_nontree_null (t : DocTree) (k : String) (rest : List String) :
    (alookup t k = none → extractFieldValue t (k :: rest) = Value.vnull) ∧
    (∀ v, rest ≠ [] → alookup t k = some v → (∀ sub, v ≠ Value.vtree sub) →
      extractFieldValue t (k :: rest) = Value.vnull) := by
  constructor
  · intro h
    simp [extractFieldValue, h]
  · intro v hrest hlk hnt
    cases rest with
    | nil => exact absurd rfl hrest
    | cons r rs =>
      cases v with
      | vtree t₂ => exact absurd rfl (hnt t₂)
      | vnull => simp [extractFieldValue, hlk]
      | vbool b => simp [extractFieldValue, hlk]
      | vnum n => simp [extractFieldValue, hlk]
      | vstr s => simp [extractFieldValue, hlk]
      | varr a => simp [extractFieldValue, hlk]
      | vempty => simp [extractFieldValue, hlk]

/-- Claim C4: insert is idempotent - whenever inserting v at p in t
produces a tree, inserting v at p again in that tree produces the same
tree. -/
theorem insert_idempotent (p : List String) :
    ∀ (t t' : DocTree) (v : Value), insertFieldValue t p v = .ok t' →
      insertFieldValue t' p v = .ok t' := by
  induction p with
  | nil => intro t t' v hok; simp [insertFieldValue] at hok
  | cons k rest ih =>
    intro t t' v hok
    cases rest with
    | nil =>
      simp only [insertFieldValue, Except.ok.injEq] at hok
      subst hok
      simp only [insertFieldValue, Except.ok.injEq]
      exact aset_of_alookup_eq _ _ _ (alookup_aset_self t k _)
    | cons r rs =>
      cases hlk : alookup t k with
      | none =>
        simp only [insertFieldValue, hlk] at hok
        cases hins : insertFieldValue [] (r :: rs) v with
        | error e => simp [hins] at hok
        | ok sub =>
          simp only [hins, Except.ok.injEq] at hok
          subst hok
          have h2 : insertFieldValue sub (r :: rs) v = .ok sub := ih [] sub v hins
          simp [insertFieldValue, alookup_aset_self, h2,
            aset_of_alookup_eq _ _ _ (alookup_aset_self t k (Value.vtree sub))]
      | some val =>
        cases val with
        | vtree t₂ =>
          simp only [insertFieldValue, hlk] at hok
          cases hins : insertFieldValue t₂ (r :: rs) v with
          | error e => simp [hins] at hok
          | ok sub =>
            simp only [hins, Except.ok.injEq] at hok
            subst hok
            have h2 : insertFieldValue sub (r :: rs) v = .ok sub := ih t₂ sub v hins
            simp [insertFieldValue, alookup_aset_self, h2,
              aset_of_alookup_eq _ _ _ (alookup_aset_self t k (Value.vtree sub))]
        | vnull => simp [insertFieldValue, hlk] at hok
        | vbool b => simp [insertFieldValue, hlk] at hok
        | vnum n => simp [insertFieldValue, hlk] at hok
        | vstr s => simp [insertFieldValue, hlk] at hok
        | varr a => simp [insertFieldValue, hlk] at hok
        | vempty => simp [insertFieldValue, hlk] at hok

theorem extract_eq_null_of_not_present (p : List String) :
    ∀ t : DocTree, p ≠ [] → pathPresent t p = false →
      extractFieldValue t p = Value.vnull := by
  induction p with
  | nil => intro t h _; exact absurd rfl h
  | cons k rest ih =>
    intro t _ hpp
    cases hlk : alookup t k with
    | none => simp [extractFieldValue, hlk]
    | some v =>
      cases rest with
      | nil => simp [pathPresent, hlk] at hpp
      | cons r rs =>
        cases v with
        | vtree t₂ =>
          simp only [pathPresent, hlk] at hpp
          simp only [extractFieldValue, hlk]
          exact ih t₂ (by simp) hpp
        | vnull => simp [extractFieldValue, hlk]
        | vbool b => simp [extractFieldValue, hlk]
        | vnum n => simp [extractFieldValue, hlk]
        | vstr s => simp [extractFieldValue, hlk]
        | varr a => simp [extractFieldValue, hlk]
        | vempty => simp [extractFieldValue, hlk]

/-- Claim C5: applying a field_mapping rule whose source path is absent
from the input document's tree leaves the output tree unchanged (creates no
key), because the main loop only inserts non-nil extracted values. -/
theorem field_mapping_absent_no_key (src out : DocTree) (newPath oldPath : List String)
    (hne : oldPath ≠ []) (habs : pathPresent src oldPath = false) :
    applyFieldMappingRule src out newPath oldPath = .ok out := by
  have h := extract_eq_null_of_not_present oldPath src hne habs
  simp [applyFieldMappingRule, h, isNullV]

/-- Claim C6: for a random-generation spec of type long, integer, short or
byte with numeric min and max, min less than or equal to max, the generator
returns an integer in the inclusive range from min to max (so with
min = max = 1 it returns exactly 1, as the witness shows). -/
theorem gen_int_range_in_bounds (rn : RandSrc) (config : DocTree) (ty : String)
    (mn mx : Int)
    (hintn : ∀ n, 0 < n → rn.intn n < n)
    (hty : alookup config "type" = some (Value.vstr ty))
    (htys : ty = "long" ∨ ty = "integer" ∨ ty = "short" ∨ ty = "byte")
    (hmn : alookup config "min" = some (Value.vnum mn))
    (hmx : alookup config "max" = some (Value.vnum mx))
    (hle : mn ≤ mx) :
    ∃ r : Int, generateRandomValue rn config = .ok (Value.vnum r) ∧ mn ≤ r ∧ r ≤ mx := by
  have hpos : 0 < (mx - mn + 1).toNat := by omega
  have hlt := hintn _ hpos
  have hcast : ((mx - mn + 1).toNat : Int) = mx - mn + 1 := Int.toNat_of_nonneg (by omega)
  refine ⟨mn + (rn.intn (mx - mn + 1).toNat : Int), ?_, by omega, by omega⟩
  have hrange : genIntRange rn config =
      .ok (Value.vnum (mn + (rn.intn (mx - mn + 1).toNat : Int))) := by
    simp only [genIntRange, hmn, hmx]
    rw [if_neg (by omega : ¬ mx - mn + 1 ≤ 0)]
  rcases htys with h | h | h | h <;> subst h <;>
    simp [generateRandomValue, hty, typeIs, hrange]

/-- Claim C7: for a random-generation spec of type keyword, wildcard or
constant_keyword with a non-empty values list, the generator returns an
element of that list verbatim and never any other value. -/
theorem gen_keyword_in_values (rn : RandSrc) (config : DocTree) (ty : String)
    (vs : List Value)
    (hintn : ∀ n, 0 < n → rn.intn n < n)
    (hty : alookup config "type" = some (Value.vstr ty))
    (htys : ty = "keyword" ∨ ty = "wildcard" ∨ ty = "constant_keyword")
    (hvs : alookup config "values" = some (Value.varr vs))
    (hne : vs ≠ []) :
    ∃ v, v ∈ vs ∧ generateRandomValue rn config = .ok v := by
  have hpos : 0 < vs.length := List.length_pos.mpr hne
  have hlt := hintn _ hpos
  have hget : vs[rn.intn vs.length]? = some vs[rn.intn vs.length] :=
    List.getElem?_eq_getElem hlt
  refine ⟨vs[rn.intn vs.length], List.getElem_mem hlt, ?_⟩
  have hkw : genKeyword rn config = .ok vs[rn.intn vs.length] := by
    simp [genKeyword, hvs, hget]
  rcases htys with h | h | h <;> subst h <;>
    simp [generateRandomValue, hty, typeIs, hkw]

theorem insert_nullstring_eq_null (p : List String) :
    ∀ t : DocTree, insertFieldValue t p (Value.vstr NullValue) =
      insertFieldValue t p Value.vnull := by
  induction p with
  | nil => intro t; rfl
  | cons k rest ih =>
    intro t
    cases rest with
    | nil => simp [insertFieldValue, isNullString]
    | cons r rs =>
      cases hlk : alookup t k with
      | none => simp [insertFieldValue, hlk, ih []]
      | some val =>
        cases val with
        | vtree t₂ => simp [insertFieldValue, hlk, ih t₂]
        | vnull => simp [insertFieldValue, hlk]
        | vbool b => simp [insertFieldValue, hlk]
        | vnum n => simp [insertFieldValue, hlk]
        | vstr s => simp [insertFieldValue, hlk]
        | varr a => simp [insertFieldValue, hlk]
        | vempty => simp [insertFieldValue, hlk]

/-- Claim C9: the sentinel marking present-but-null is the literal string
"NULL", so it collides with legitimate data - extracting a field literally
valued "NULL" is indistinguishable from extracting a stored null, inserting
any value equal to the string "NULL" stores native null instead, and hence
remapping a field literally valued "NULL" inserts native null in the
output. -/
theorem null_sentinel_collision :
    (∀ (t : DocTree) (k : String), alookup t k = some (Value.vstr "NULL") →
      extractFieldValue t [k] = Value.vstr "NULL" ∧
      extractFieldValue t [k] = extractFieldValue (aset t k Value.vnull) [k]) ∧
    (∀ (t : DocTree) (p : List String),
      insertFieldValue t p (Value.vstr "NULL") = insertFieldValue t p Value.vnull) ∧
    (∀ (src out : DocTree) (newPath oldPath : List String),
      extractFieldValue src oldPath = Value.vstr "NULL" →
      applyFieldMappingRule src out newPath oldPath =
        insertFieldValue out newPath Value.vnull) := by
  refine ⟨?_, ?_, ?_⟩
  · intro t k hlk
    constructor
    · simp [extractFieldValue, hlk, isNullV]
    · simp [extractFieldValue, hlk, alookup_aset_self, isNullV, NullValue]
  · intro t p
    have h := insert_nullstring_eq_null p t
    simpa [NullValue] using h
  · intro src out newPath oldPath hx
    have h := insert_nullstring_eq_null newPath out
    simp only [applyFieldMappingRule, hx]
    simpa [NullValue, isNullV] using h

theorem alookup_buildMap_of_notin (headers : List String) (idx : Nat)
    (rows : List (List String)) :
    ∀ (acc m : List (String × DocTree)) (x : String),
      buildMapByID headers idx rows acc = .ok m →
      (∀ r ∈ rows, r[idx]? ≠ some x) →
      alookup m x = alookup acc x := by
  induction rows with
  | nil =>
    intro acc m x hok _
    simp only [buildMapByID, Except.ok.injEq] at hok
    subst hok
    rfl
  | cons row rest ih =>
    intro acc m x hok hnot
    simp only [buildMapByID] at hok
    cases hid : row[idx]? with
    | none => simp [hid] at hok
    | some id =>
      simp only [hid] at hok
      cases hf : rowFields headers row idx with
      | error e => simp [hf] at hok
      | ok fields =>
        simp only [hf] at hok
        have hne : id ≠ x := by
          intro he
          subst he
          exact (hnot row (by simp)) hid
        rw [ih _ m x hok (fun r hr => hnot r (by simp [hr]))]
        exact alookup_aset_ne _ _ _ _ hne

theorem buildMap_append (headers : List String) (idx : Nat) (a : List (List String)) :
    ∀ (b : List (List String)) (acc m : List (String × DocTree)),
      buildMapByID headers idx (a ++ b) acc = .ok m →
      ∃ acc', buildMapByID headers idx a acc = .ok acc' ∧
        buildMapByID headers idx b acc' = .ok m := by
  induction a with
  | nil => intro b acc m h; exact ⟨acc, rfl, h⟩
  | cons row rest ih =>
    intro b acc m h
    simp only [List.cons_append, buildMapByID] at h ⊢
    cases hid : row[idx]? with
    | none => simp [hid] at h
    | some id =>
      simp only [hid] at h ⊢
      cases hf : rowFields headers row idx with
      | error e => simp [hf] at h
      | ok fields =>
        simp only [hf] at h ⊢
        exact ih b _ m h

theorem rowFieldsAux_no_id (row : List String) (idx : Nat) (hs : List String) :
    ∀ (i : Nat) (acc f : DocTree),
      rowFieldsAux row idx hs i acc = .ok f →
      (∀ j : Nat, hs[j]? = some "id" → i + j = idx) →
      alookup acc "id" = none →
      alookup f "id" = none := by
  induction hs with
  | nil =>
    intro i acc f hok _ hacc
    simp only [rowFieldsAux, Except.ok.injEq] at hok
    subst hok
    exact hacc
  | cons h hs ih =>
    intro i acc f hok hid hacc
    simp only [rowFieldsAux] at hok
    by_cases hi : i = idx
    · rw [if_pos hi] at hok
      refine ih (i + 1) acc f hok ?_ hacc
      intro j hj
      have := hid (j + 1) (by simpa using hj)
      omega
    · rw [if_neg hi] at hok
      cases hg : row[i]? with
      | none => simp [hg] at hok
      | some v =>
        simp only [hg] at hok
        have hne : h ≠ "id" := by
          intro he
          have := hid 0 (by simp [he])
          omega
        refine ih (i + 1) _ f hok ?_ ?_
        · intro j hj
          have := hid (j + 1) (by simpa using hj)
          omega
        · rw [alookup_aset_ne _ _ _ _ hne]
          exact hacc

theorem rowFields_no_id (headers row : List String) (idx : Nat) (f : DocTree)
    (hok : rowFields headers row idx = .ok f)
    (huniq : ∀ j, headers[j]? = some "id" → j = idx) :
    alookup f "id" = none :=
  rowFieldsAux_no_id row idx headers 0 [] f hok
    (fun j hj => by simpa using huniq j hj) rfl

/-- Claim C8: when the same id value appears in multiple side-data rows,
the loaded map binds that id to the field-set of the last such row
(last-write-wins), and the id column itself is excluded from the stored
fields. -/
theorem side_data_last_write_wins (headers : List String) (idx : Nat)
    (rows₁ rows₂ : List (List String)) (row : List String) (x : String)
    (m : List (String × DocTree)) (f : DocTree)
    (hall : extractFileData (headers :: (rows₁ ++ row :: rows₂)) = .ok m)
    (hidx : findIdIndex headers 0 = some idx)
    (hid : row[idx]? = some x)
    (hlater : ∀ r ∈ rows₂, r[idx]? ≠ some x)
    (hf : rowFields headers row idx = .ok f)
    (huniq : ∀ j, headers[j]? = some "id" → j = idx) :
    alookup m x = some f ∧ alookup f "id" = none := by
  simp only [extractFileData, hidx] at hall
  obtain ⟨acc', hacc', hrest⟩ := buildMap_append headers idx rows₁ (row :: rows₂) [] m hall
  simp only [buildMapByID, hid, hf] at hrest
  constructor
  · rw [alookup_buildMap_of_notin headers idx rows₂ _ m x hrest hlater]
    exact alookup_aset_self _ _ _
  · exact rowFields_no_id headers row idx f hf huniq

/-- Claim C10: on a side-data file whose parse yields zero records,
extractFileData fails at the header-row access (out-of-range index), a
failure distinct from and reached before the "id column not found" fatal
error. -/
theorem side_data_empty_file_header_panic :
    extractFileData [] = .error .emptyRecords ∧
    extractFileData [] ≠ .error .noIdColumn := by
  exact ⟨rfl, by simp [extractFileData]⟩

theorem extract_insert_roundtrip_witness :
    extractFieldValue [("a", Value.vtree [("b", Value.vnum 3)])] ["a", "b"] = Value.vnum 3 :=
  extract_insert_roundtrip ["a", "b"] [] [("a", Value.vtree [("b", Value.vnum 3)])]
    (Value.vnum 3) rfl (by simp)

theorem insert_typeAssert_iff_witness :
    (insertFieldValue [("a", Value.vnum 7)] ["a", "b"] (Value.vnum 3) =
        .error .typeAssert ↔ badIntermediate [("a", Value.vnum 7)] ["a", "b"] = true) ∧
      (badIntermediate [("a", Value.vnum 7)] ["a", "b"] = false →
        ∃ t', insertFieldValue [("a", Value.vnum 7)] ["a", "b"] (Value.vnum 3) = .ok t') :=
  insert_typeAssert_iff ["a", "b"] [("a", Value.vnum 7)] (Value.vnum 3) (by simp)

theorem extract_absent_or_nontree_null_witness :
    extractFieldValue [("b", Value.vnum 1)] ["a"] = Value.vnull ∧
    extractFieldValue [("a", Value.vnum 1)] ["a", "b"] = Value.vnull := by
  constructor
  · exact (extract_absent_or_nontree_null [("b", Value.vnum 1)] "a" []).1 rfl
  · exact (extract_absent_or_nontree_null [("a", Value.vnum 1)] "a" ["b"]).2
      (Value.vnum 1) (by simp) rfl (fun sub => by simp)

theorem insert_idempotent_witness :
    insertFieldValue [("a", Value.vtree [("b", Value.vnum 3)])] ["a", "b"] (Value.vnum 3) =
      .ok [("a", Value.vtree [("b", Value.vnum 3)])] :=
  insert_idempotent ["a", "b"] [] [("a", Value.vtree [("b", Value.vnum 3)])] (Value.vnum 3) rfl

theorem field_mapping_absent_no_key_witness :
    applyFieldMappingRule [("a", Value.vtree [("b", Value.vnum 1)])] [] ["x", "y"]
      ["a", "c"] = .ok [] :=
  field_mapping_absent_no_key [("a", Value.vtree [("b", Value.vnum 1)])] [] ["x", "y"]
    ["a", "c"] (by simp) rfl

theorem gen_int_range_in_bounds_witness :
    ∃ r : Int, generateRandomValue ⟨fun _ => 0, "", fun _ _ => Value.vnull⟩
      [("type", Value.vstr "long"), ("min", Value.vnum 1), ("max", Value.vnum 1)] =
        .ok (Value.vnum r) ∧ 1 ≤ r ∧ r ≤ 1 :=
  gen_int_range_in_bounds ⟨fun _ => 0, "", fun _ _ => Value.vnull⟩
    [("type", Value.vstr "long"), ("min", Value.vnum 1), ("max", Value.vnum 1)]
    "long" 1 1 (fun _ hn => hn) rfl (Or.inl rfl) rfl rfl le_rfl

theorem gen_keyword_in_values_witness :
    ∃ v, v ∈ [Value.vstr "a", Value.vstr "b"] ∧
      generateRandomValue ⟨fun _ => 0, "", fun _ _ => Value.vnull⟩
        [("type", Value.vstr "keyword"),
          ("values", Value.varr [Value.vstr "a", Value.vstr "b"])] = .ok v :=
  gen_keyword_in_values ⟨fun _ => 0, "", fun _ _ => Value.vnull⟩
    [("type", Value.vstr "keyword"),
      ("values", Value.varr [Value.vstr "a", Value.vstr "b"])]
    "keyword" [Value.vstr "a", Value.vstr "b"]
    (fun _ hn => hn) rfl (Or.inl rfl) rfl (by simp)

theorem side_data_last_write_wins_witness :
    alookup [("42", [("name", Value.vstr "Alice")])] "42" =
        some [("name", Value.vstr "Alice")] ∧
      alookup [("name", Value.vstr "Alice")] "id" = none :=
  side_data_last_write_wins ["id", "name"] 0 [["42", "Bob"]] [] ["42", "Alice"] "42"
    [("42", [("name", Value.vstr "Alice")])] [("name", Value.vstr "Alice")]
    rfl rfl rfl (by simp) rfl
    (fun j hj => by
      match j with
      | 0 => rfl
      | 1 => simp at hj
      | n + 2 => simp at hj)

theorem null_sentinel_collision_witness :
    extractFieldValue [("f", Value.vstr "NULL")] ["f"] = Value.vstr "NULL" ∧
    insertFieldValue [] ["g"] (Value.vstr "NULL") = insertFieldValue [] ["g"] Value.vnull :=
  ⟨(null_sentinel_collision.1 [("f", Value.vstr "NULL")] "f" rfl).1,
    null_sentinel_collision.2.1 [] ["g"]⟩
